import Mathlib

/-!
Verification development for the coopernoise repository.

Shallow embedding of the core components over exact rational arithmetic:
- `noise.js`: the seeded Perlin noise field (mulberry32 PRNG, FNV-1a string
  hashing, Fisher-Yates permutation shuffle, `noise3`, `fbm3`).
- `analyze.js` (unnamed/part_001): offline beat analysis of a waveform.
- `audio.js`: the `AudioEngine` real-time adapter (time, level, beat pulse,
  bar length).
- `visuals.js` (inside recorder.js): the `Visuals` per-frame update
  (loudness smoothing, pulse, vertex displacement, auto shape cycling).

JavaScript numbers are modelled as exact rationals; 32-bit integer
operations (`>>> 0`, `& 255`, `Math.imul`, bit shifts) are modelled on `Nat`
with explicit `% 2^32` masking at the points where JavaScript coerces to
32-bit integers.  `Math.pow(x, 0.9)` is transcendental and is modelled with
`Real.rpow`; everything else stays in `ℚ` and is executable.
-/

set_option maxRecDepth 4000

namespace Coopernoise

/- The library marks the arithmetic kernels of `Rat` irreducible; concrete
evaluation by `decide` needs them unfolded. -/
attribute [local semireducible] Rat.add Rat.sub Rat.mul Rat.inv Rat.ofScientific

/-! ## noise.js: mulberry32, FNV-1a hashing, permutation table -/

/-- `2^32`, the modulus of all JavaScript 32-bit integer coercions. -/
def M32 : Nat := 4294967296

/-- One call of the closure returned by `mulberry32(a)` (noise.js lines 66-73).
The state `a` grows unboundedly in JavaScript (float addition, no masking);
every bitwise operation coerces to 32 bits first, which is the `% M32` here.
Returns the new state and the raw 32-bit output `(t ^ (t >>> 14)) >>> 0`
(the JavaScript result is that value divided by `4294967296`). -/
def mulberryStep (a : Nat) : Nat × Nat :=
  let a2 := a + 0x6D2B79F5
  let t0 := a2 % M32
  let t1 := ((t0 ^^^ (t0 >>> 15)) * (t0 ||| 1)) % M32
  let t2 := t1 ^^^ ((t1 + ((t1 ^^^ (t1 >>> 7)) * (t1 ||| 61)) % M32) % M32)
  (a2, t2 ^^^ (t2 >>> 14))

/-- FNV-1a style string hash `_hashString` (noise.js lines 57-64), over the
sequence of `charCodeAt` values: `h = 2166136261`, then per character
`h ^= c; h = Math.imul(h, 16777619)`, returned as `h >>> 0`. -/
def fnvHash (codes : List Nat) : Nat :=
  codes.foldl (fun h c => ((h ^^^ c) * 16777619) % M32) 2166136261

/-- A seed as accepted by `Perlin.setSeed`: a number (coerced by `>>> 0`)
or a string (hashed). -/
inductive SeedInput where
  | num (n : Int)
  | str (codes : List Nat)

/-- `(typeof seed === 'string') ? this._hashString(seed) : seed >>> 0`
(noise.js line 7); `>>> 0` is ToUint32, i.e. the nonnegative residue
mod `2^32`. -/
def seedVal : SeedInput → Nat
  | .num n => (n % (4294967296 : Int)).toNat
  | .str codes => fnvHash codes

/-- Array element swap `const tmp = p[i]; p[i] = p[j]; p[j] = tmp`
(noise.js line 13). -/
def swapList (l : List Nat) (i j : Nat) : List Nat :=
  (l.set i (l.getD j 0)).set j (l.getD i 0)

/-- One iteration of the Fisher-Yates loop body at index `i`
(noise.js lines 11-14): draw `rand()`, compute
`j = Math.floor(rand() * (i + 1))` and swap `p[i]` with `p[j]`.
With raw output `o < 2^32` the floored product is exactly
`o * (i + 1) / 2^32` in natural division. -/
def shuffleStep (st : List Nat × Nat) (i : Nat) : List Nat × Nat :=
  let (a2, o) := mulberryStep st.2
  (swapList st.1 i (o * (i + 1) / M32), a2)

/-- The loop `for (let i = 255; i > 0; i--)`: applies `shuffleStep` at
`i, i-1, ..., 1`. -/
def shuffleFrom : Nat → List Nat × Nat → List Nat × Nat
  | 0, st => st
  | i + 1, st => shuffleFrom i (shuffleStep st (i + 1))

/-- The local array `p` of `setSeed` after the Fisher-Yates loop
(noise.js lines 8-14): `0..255` in order, then the seeded shuffle. -/
def setSeedP (seed32 : Nat) : List Nat :=
  (shuffleFrom 255 (List.range 256, seed32)).1

/-- `Perlin.setSeed` (noise.js lines 6-16): fill `p` with `0..255`, seeded
Fisher-Yates shuffle via mulberry32, then duplicate into a 512-entry table
with `this._perm[i] = p[i & 255]`. -/
def setSeedPerm (seed32 : Nat) : List Nat :=
  (List.range 512).map fun i => (setSeedP seed32).getD (i &&& 255) 0

/-- The `Perlin` noise field state: the normalized seed and the 512-entry
permutation table. -/
structure Perlin where
  seed : Nat
  perm : List Nat

/-- Construction / `setSeed`: the constructor (noise.js lines 2-5) just
calls `setSeed(seed)` on the fresh object. -/
def mkPerlin (s : SeedInput) : Perlin :=
  { seed := seedVal s, perm := setSeedPerm (seedVal s) }

/-! ## noise.js: fade, lerp, grad, noise3, fbm3 -/

/-- `fade(t) = t*t*t*(t*(t*6-15)+10)` (noise.js line 17). -/
def fade (t : ℚ) : ℚ := t * t * t * (t * (t * 6 - 15) + 10)

/-- `lerp(t,a,b) = a + t*(b-a)` (noise.js line 18). -/
def lerp (t a b : ℚ) : ℚ := a + t * (b - a)

/-- `grad(hash, x, y, z)` (noise.js lines 19-24).  `(h & 1) ? -u : u`
tests truthiness, i.e. the bit being nonzero. -/
def grad (hash : Nat) (x y z : ℚ) : ℚ :=
  let h := hash &&& 15
  let u := if h < 8 then x else y
  let v := if h < 4 then y else if h = 12 ∨ h = 14 then x else z
  (if h &&& 1 ≠ 0 then -u else u) + (if h &&& 2 ≠ 0 then -v else v)

/-- `Math.floor(x) & 255` for a JavaScript number: bitwise AND coerces the
(possibly negative) integer to two's complement, so the result is the
nonnegative residue mod 256. -/
def jsAnd255 (n : Int) : Nat := (n % 256).toNat

/-- `Perlin.noise3(x, y, z)` (noise.js lines 25-45), parametrized by the
permutation table. -/
def noise3 (perm : List Nat) (x y z : ℚ) : ℚ :=
  let X := jsAnd255 ⌊x⌋
  let Y := jsAnd255 ⌊y⌋
  let Z := jsAnd255 ⌊z⌋
  let xf := x - (⌊x⌋ : ℚ)
  let yf := y - (⌊y⌋ : ℚ)
  let zf := z - (⌊z⌋ : ℚ)
  let u := fade xf
  let v := fade yf
  let w := fade zf
  let A := perm.getD X 0 + Y
  let AA := perm.getD A 0 + Z
  let AB := perm.getD (A + 1) 0 + Z
  let B := perm.getD (X + 1) 0 + Y
  let BA := perm.getD B 0 + Z
  let BB := perm.getD (B + 1) 0 + Z
  lerp w
    (lerp v
      (lerp u (grad (perm.getD AA 0) xf yf zf) (grad (perm.getD BA 0) (xf - 1) yf zf))
      (lerp u (grad (perm.getD AB 0) xf (yf - 1) zf)
        (grad (perm.getD BB 0) (xf - 1) (yf - 1) zf)))
    (lerp v
      (lerp u (grad (perm.getD (AA + 1) 0) xf yf (zf - 1))
        (grad (perm.getD (BA + 1) 0) (xf - 1) yf (zf - 1)))
      (lerp u (grad (perm.getD (AB + 1) 0) xf (yf - 1) (zf - 1))
        (grad (perm.getD (BB + 1) 0) (xf - 1) (yf - 1) (zf - 1))))

/-- The list of every index used to subscript the permutation table inside
`noise3(x, y, z)`: `X`, `X+1` and the derived `A`, `A+1`, `B`, `B+1`,
`AA`, `AB`, `BA`, `BB` and their `+1` variants, computed exactly as
`noise3` computes them. -/
def noise3Indices (perm : List Nat) (x y z : ℚ) : List Nat :=
  let X := jsAnd255 ⌊x⌋
  let Y := jsAnd255 ⌊y⌋
  let Z := jsAnd255 ⌊z⌋
  let A := perm.getD X 0 + Y
  let AA := perm.getD A 0 + Z
  let AB := perm.getD (A + 1) 0 + Z
  let B := perm.getD (X + 1) 0 + Y
  let BA := perm.getD B 0 + Z
  let BB := perm.getD (B + 1) 0 + Z
  [X, X + 1, A, A + 1, B, B + 1, AA, AA + 1, AB, AB + 1, BA, BA + 1, BB, BB + 1]

/-- The loop of `fbm3` (noise.js lines 48-56): running `amp`, `freq` and
`sum` through the remaining octaves. -/
def fbm3Go (perm : List Nat) (x y z lac gain : ℚ) : Nat → ℚ → ℚ → ℚ → ℚ
  | 0, _, _, sum => sum
  | i + 1, amp, freq, sum =>
      fbm3Go perm x y z lac gain i (amp * gain) (freq * lac)
        (sum + amp * noise3 perm (x * freq) (y * freq) (z * freq))

/-- `Perlin.fbm3(x, y, z, octaves, lacunarity, gain)`: `amp` starts at 0.5,
`freq` at 1.0, `sum` at 0.0. -/
def fbm3 (perm : List Nat) (x y z : ℚ) (octaves : Nat) (lac gain : ℚ) : ℚ :=
  fbm3Go perm x y z lac gain octaves (1/2) 1 0

/-! ## Facts about the permutation table -/

theorem setSeedPerm_length (seed32 : Nat) : (setSeedPerm seed32).length = 512 := by
  simp [setSeedPerm]

/-- Replacing position `k` by `x` and putting the old `l[k]` in front is a
permutation of putting `x` in front of `l`. -/
theorem cons_getD_set_perm (x : Nat) :
    ∀ (l : List Nat) (k : Nat), k < l.length → (l.getD k 0 :: l.set k x).Perm (x :: l)
  | a :: tl, 0, _ => by
      simpa using List.Perm.swap x a tl
  | a :: tl, k + 1, h => by
      have hk : k < tl.length := by simpa using h
      have step1 := List.Perm.swap a (tl.getD k 0) (tl.set k x)
      have step2 := (cons_getD_set_perm x tl k hk).cons a
      have step3 := List.Perm.swap x a tl
      simpa using (step1.trans step2).trans step3

/-- The in-place element swap of the Fisher-Yates loop permutes the list. -/
theorem swapList_perm :
    ∀ (l : List Nat) (i j : Nat), i < l.length → j < l.length → (swapList l i j).Perm l
  | a :: tl, 0, 0, _, _ => by
      simp [swapList]
  | a :: tl, 0, j + 1, _, hj => by
      have hj2 : j < tl.length := by simpa using hj
      simpa [swapList] using cons_getD_set_perm a tl j hj2
  | a :: tl, i + 1, 0, hi, _ => by
      have hi2 : i < tl.length := by simpa using hi
      simpa [swapList] using cons_getD_set_perm a tl i hi2
  | a :: tl, i + 1, j + 1, hi, hj => by
      have hi2 : i < tl.length := by simpa using hi
      have hj2 : j < tl.length := by simpa using hj
      simpa [swapList] using (swapList_perm tl i j hi2 hj2).cons a

theorem M32_eq : M32 = 2 ^ 32 := by norm_num [M32]

theorem xor32_lt {x y : Nat} (hx : x < M32) (hy : y < M32) : x ^^^ y < M32 := by
  have h := Nat.xor_lt_two_pow (n := 32) (by simpa [M32_eq] using hx)
    (by simpa [M32_eq] using hy)
  simpa [M32_eq] using h

theorem xor_shift14_lt {t : Nat} (ht : t < M32) : t ^^^ t >>> 14 < M32 :=
  xor32_lt ht (lt_of_le_of_lt
    (by rw [Nat.shiftRight_eq_div_pow]; exact Nat.div_le_self _ _) ht)

/-- The raw mulberry32 output is a 32-bit value. -/
theorem mulberryOut_lt (a : Nat) : (mulberryStep a).2 < M32 := by
  have hM : 0 < M32 := by norm_num [M32]
  simp only [mulberryStep]
  exact xor_shift14_lt (xor32_lt (Nat.mod_lt _ hM) (Nat.mod_lt _ hM))

/-- Running any suffix of the Fisher-Yates loop on a permutation of
`0..255` yields a permutation of `0..255`. -/
theorem shuffleFrom_fst_perm :
    ∀ (n : Nat) (st : List Nat × Nat), n ≤ 255 → st.1.Perm (List.range 256) →
      (shuffleFrom n st).1.Perm (List.range 256)
  | 0, _, _, hp => hp
  | n + 1, st, hn, hp => by
      have hlen : st.1.length = 256 := by
        simpa using hp.length_eq
      have hi : n + 1 < st.1.length := by omega
      have ho := mulberryOut_lt st.2
      have hj : (mulberryStep st.2).2 * (n + 1 + 1) / M32 < st.1.length := by
        have h0 : (mulberryStep st.2).2 * (n + 1 + 1) < M32 * (n + 1 + 1) :=
          mul_lt_mul_of_pos_right ho (by omega)
        have h1 : (mulberryStep st.2).2 * (n + 1 + 1) / M32 < n + 1 + 1 :=
          Nat.div_lt_of_lt_mul h0
        omega
      refine shuffleFrom_fst_perm n (shuffleStep st (n + 1)) (by omega) ?_
      simp only [shuffleStep]
      exact (swapList_perm st.1 (n + 1) _ hi hj).trans hp

theorem setSeedP_perm (seed32 : Nat) : (setSeedP seed32).Perm (List.range 256) :=
  shuffleFrom_fst_perm 255 (List.range 256, seed32) (by omega) (List.Perm.refl _)

theorem setSeedP_length (seed32 : Nat) : (setSeedP seed32).length = 256 := by
  simpa using (setSeedP_perm seed32).length_eq

/-- Every entry of the duplicated 512-entry table reads `p` at `k % 256`. -/
theorem setSeedPerm_getD (seed32 k : Nat) (hk : k < 512) :
    (setSeedPerm seed32).getD k 0 = (setSeedP seed32).getD (k % 256) 0 := by
  have hlen : k < (setSeedPerm seed32).length := by
    rw [setSeedPerm_length]; exact hk
  rw [List.getD_eq_getElem _ _ hlen]
  have h255 : (255 : Nat) = 2 ^ 8 - 1 := by norm_num
  simp only [setSeedPerm, List.getElem_map, List.getElem_range, h255,
    Nat.and_pow_two_sub_one_eq_mod]

theorem setSeedP_getD_lt (seed32 k : Nat) (hk : k < 256) :
    (setSeedP seed32).getD k 0 < 256 := by
  have hlen : k < (setSeedP seed32).length := by rw [setSeedP_length]; exact hk
  have hmem : (setSeedP seed32).getD k 0 ∈ setSeedP seed32 := by
    rw [List.getD_eq_getElem _ _ hlen]
    exact List.getElem_mem hlen
  have := (setSeedP_perm seed32).mem_iff.mp hmem
  simpa [List.mem_range] using this

theorem setSeedPerm_getD_lt (seed32 k : Nat) (hk : k < 512) :
    (setSeedPerm seed32).getD k 0 < 256 := by
  rw [setSeedPerm_getD seed32 k hk]
  exact setSeedP_getD_lt seed32 (k % 256) (Nat.mod_lt _ (by omega))

theorem setSeedPerm_take (seed32 : Nat) :
    (setSeedPerm seed32).take 256 = setSeedP seed32 := by
  apply List.ext_getElem
  · simp [setSeedPerm_length, setSeedP_length]
  · intro i h1 h2
    have hi : i < 256 := by simpa [setSeedPerm_length] using h1
    have hlen : i < (setSeedPerm seed32).length := by rw [setSeedPerm_length]; omega
    rw [List.getElem_take, ← List.getD_eq_getElem _ 0 hlen, setSeedPerm_getD seed32 i (by omega),
      Nat.mod_eq_of_lt hi, List.getD_eq_getElem _ 0 h2]

/-- `Math.floor(x) & 255` is below 256. -/
theorem jsAnd255_lt (n : Int) : jsAnd255 n < 256 := by
  have h1 : 0 ≤ n % 256 := Int.emod_nonneg n (by omega)
  have h2 : n % 256 < 256 := Int.emod_lt_of_pos n (by omega)
  simp only [jsAnd255]
  omega

/-! ## Claim C4: seed determinism of the noise field -/

/-- C4: for every seed (32-bit unsigned integer, or string hashed by the
FNV-1a-style mix), two independently constructed noise fields given the
same seed build bit-identical 512-entry permutation tables and produce
bit-identical `noise3` outputs on every coordinate sequence. -/
theorem C4_noise_two_run_determinism (s₁ s₂ : SeedInput) (h : s₁ = s₂) :
    (mkPerlin s₁).perm.length = 512 ∧
    (mkPerlin s₁).perm = (mkPerlin s₂).perm ∧
    ∀ coords : List (ℚ × ℚ × ℚ),
      coords.map (fun c => noise3 (mkPerlin s₁).perm c.1 c.2.1 c.2.2) =
        coords.map (fun c => noise3 (mkPerlin s₂).perm c.1 c.2.1 c.2.2) := by
  subst h
  exact ⟨setSeedPerm_length _, rfl, fun _ => rfl⟩

/-- Witness for C4 at the constructor default seed `123456`. -/
theorem C4_noise_two_run_determinism_witness :
    (SeedInput.num 123456 = SeedInput.num 123456) ∧
    ((mkPerlin (.num 123456)).perm.length = 512 ∧
      (mkPerlin (.num 123456)).perm = (mkPerlin (.num 123456)).perm ∧
      ∀ coords : List (ℚ × ℚ × ℚ),
        coords.map (fun c => noise3 (mkPerlin (.num 123456)).perm c.1 c.2.1 c.2.2) =
          coords.map (fun c => noise3 (mkPerlin (.num 123456)).perm c.1 c.2.1 c.2.2)) :=
  ⟨rfl, C4_noise_two_run_determinism (.num 123456) (.num 123456) rfl⟩

/-! ## Claim C8: fbm3 with a single octave -/

/-- C8: for every seeded noise field and all inputs,
`fbm3(x, y, z, octaves = 1)` equals `0.5 * noise3(x, y, z)` (for any
lacunarity and gain, which are not consumed by a single octave). -/
theorem C8_fbm3_single_octave (s : SeedInput) (x y z lac gain : ℚ) :
    fbm3 (mkPerlin s).perm x y z 1 lac gain = 1 / 2 * noise3 (mkPerlin s).perm x y z := by
  simp [fbm3, fbm3Go, mul_one]

/-! ## Claim C10: permutation-table invariant and in-bounds indexing -/

/-- C10: after construction or any `setSeed`, the 512-entry table satisfies
`perm[i+256] = perm[i]` for `i < 256`, its first 256 entries are a
permutation of `{0,...,255}`, and consequently every index `noise3`
computes into the table (`p[X]+Y`, `p[X+1]+Y`, their `+Z` successors and
`+1` variants) is within `0..511`, for arbitrary input coordinates. -/
theorem C10_perm_table_inv (s : SeedInput) (x y z : ℚ) :
    (mkPerlin s).perm.length = 512 ∧
    (∀ i : Fin 256, (mkPerlin s).perm.getD (i.val + 256) 0 = (mkPerlin s).perm.getD i.val 0) ∧
    ((mkPerlin s).perm.take 256).Perm (List.range 256) ∧
    ∀ idx ∈ noise3Indices (mkPerlin s).perm x y z, idx < 512 := by
  refine ⟨setSeedPerm_length _, ?_, ?_, ?_⟩
  · intro i
    simp only [mkPerlin]
    rw [setSeedPerm_getD _ _ (by omega), setSeedPerm_getD _ _ (by omega)]
    have h1 : (i.val + 256) % 256 = i.val % 256 := by omega
    rw [h1]
  · simp only [mkPerlin]
    rw [setSeedPerm_take]
    exact setSeedP_perm _
  · intro idx hidx
    have hX : jsAnd255 ⌊x⌋ < 256 := jsAnd255_lt _
    have hY : jsAnd255 ⌊y⌋ < 256 := jsAnd255_lt _
    have hZ : jsAnd255 ⌊z⌋ < 256 := jsAnd255_lt _
    have hpX := setSeedPerm_getD_lt (seedVal s) (jsAnd255 ⌊x⌋) (by omega)
    have hpX1 := setSeedPerm_getD_lt (seedVal s) (jsAnd255 ⌊x⌋ + 1) (by omega)
    have hA : (mkPerlin s).perm.getD (jsAnd255 ⌊x⌋) 0 + jsAnd255 ⌊y⌋ < 511 := by
      simp only [mkPerlin] at *; omega
    have hB : (mkPerlin s).perm.getD (jsAnd255 ⌊x⌋ + 1) 0 + jsAnd255 ⌊y⌋ < 511 := by
      simp only [mkPerlin] at *; omega
    have hpA := setSeedPerm_getD_lt (seedVal s)
      ((mkPerlin s).perm.getD (jsAnd255 ⌊x⌋) 0 + jsAnd255 ⌊y⌋) (by simp only [mkPerlin] at *; omega)
    have hpA1 := setSeedPerm_getD_lt (seedVal s)
      ((mkPerlin s).perm.getD (jsAnd255 ⌊x⌋) 0 + jsAnd255 ⌊y⌋ + 1)
      (by simp only [mkPerlin] at *; omega)
    have hpB := setSeedPerm_getD_lt (seedVal s)
      ((mkPerlin s).perm.getD (jsAnd255 ⌊x⌋ + 1) 0 + jsAnd255 ⌊y⌋)
      (by simp only [mkPerlin] at *; omega)
    have hpB1 := setSeedPerm_getD_lt (seedVal s)
      ((mkPerlin s).perm.getD (jsAnd255 ⌊x⌋ + 1) 0 + jsAnd255 ⌊y⌋ + 1)
      (by simp only [mkPerlin] at *; omega)
    simp only [noise3Indices, List.mem_cons, List.not_mem_nil, or_false] at hidx
    simp only [mkPerlin] at *
    rcases hidx with rfl | rfl | rfl | rfl | rfl | rfl | rfl | rfl | rfl | rfl | rfl | rfl |
      rfl | rfl <;> omega

/-- Witness for C10: concrete instances of the inner bounded statements at
seed `123456` and the origin. -/
theorem C10_perm_table_inv_witness :
    (mkPerlin (.num 123456)).perm.length = 512 ∧
    (mkPerlin (.num 123456)).perm.getD 259 0 = (mkPerlin (.num 123456)).perm.getD 3 0 ∧
    jsAnd255 ⌊(0 : ℚ)⌋ < 512 := by
  obtain ⟨h1, h2, h3, h4⟩ := C10_perm_table_inv (.num 123456) 0 0 0
  exact ⟨h1, h2 ⟨3, by norm_num⟩, h4 _ (by simp [noise3Indices])⟩

/-! ## analyze.js: offline beat analysis -/

/-- A decoded waveform as read by `analyzeBuffer`: sample rate, per-channel
sample arrays, `buffer.length` and `buffer.duration`.  The channel count of
the source is `channels.length`. -/
structure Waveform where
  sampleRate : ℚ
  channels : List (List ℚ)
  length : Nat
  duration : ℚ

/-- The result record returned by `analyzeBuffer` (lines 69-78), with the
fixed `hop` field and the beat grid; `none` in the surrounding `Option`
marks divergence of the beat-grid loop. -/
structure AnalysisResult where
  sampleRate : ℚ
  duration : ℚ
  frames : Nat
  hop : Nat
  rms : List ℚ
  onset : List ℚ
  bpm : Nat
  beatTimes : List ℚ

/-- `Math.round(q)`, which is `⌊q + 0.5⌋` for every JavaScript number. -/
def jsRound (q : ℚ) : Int := ⌊q + 1/2⌋

/-- The mono downmix (lines 11-16): `mono[i] = Σ_c data_c[i] / chs`,
accumulated channel by channel. -/
def monoOf (w : Waveform) : List ℚ :=
  (List.range w.length).map fun i =>
    w.channels.foldl (fun acc data => acc + data.getD i 0 / (w.channels.length : ℚ)) 0

/-- `nFrames = Math.max(1, Math.floor((len - win) / hop))` with
`win = 1024`, `hop = 512` (line 21). -/
def nFramesOf (len : Nat) : Nat :=
  (max 1 (Int.fdiv ((len : Int) - 1024) 512)).toNat

/-- Per-frame RMS (lines 24-32); `mono[start + i] || 0` is out-of-bounds
safe, hence the `getD` default.  The square root is abstracted by `sqrtQ`
(JavaScript computes `Math.sqrt` in binary floating point). -/
def rmsOf (sqrtQ : ℚ → ℚ) (mono : List ℚ) (nFrames : Nat) : List ℚ :=
  (List.range nFrames).map fun f =>
    sqrtQ (((List.range 1024).foldl
      (fun s i => s + mono.getD (f * 512 + i) 0 * mono.getD (f * 512 + i) 0) 0) / 1024)

/-- Half-wave rectified RMS difference (lines 35-39); index 0 keeps the
`Float32Array` zero initialisation. -/
def fluxRaw (rms : List ℚ) (nFrames : Nat) : List ℚ :=
  (List.range nFrames).map fun i =>
    if i = 0 then 0
    else if rms.getD (i - 1) 0 < rms.getD i 0 then rms.getD i 0 - rms.getD (i - 1) 0 else 0

/-- `smoothInPlace(arr, 5)` (lines 88-100): centered moving average of
radius 5, boundary-clamped to in-range neighbours. -/
def smoothRad5 (arr : List ℚ) : List ℚ :=
  (List.range arr.length).map fun i =>
    let idxs := (List.range 11).filterMap fun r =>
      let j := (i : Int) + r - 5
      if 0 ≤ j ∧ j < (arr.length : Int) then some j.toNat else none
    (idxs.foldl (fun s j => s + arr.getD j 0) 0) / (idxs.length : ℚ)

/-- `dotAtLag` (lines 81-86): `-Infinity` is modelled as `⊥ : WithBot ℚ`;
otherwise the mean of `x[i] * x[i - lag]` over the valid range. -/
def dotAtLag (x : List ℚ) (lag : Int) : WithBot ℚ :=
  if lag ≤ 0 ∨ (x.length : Int) ≤ lag then ⊥
  else (((List.range (x.length - lag.toNat)).foldl
      (fun s k => s + x.getD (lag.toNat + k) 0 * x.getD k 0) 0) /
    ((x.length : ℚ) - (lag : ℚ)) : ℚ)

/-- The tempo scan (lines 43-50): for each integer BPM in `[70, 180]`
compute the frame lag and keep the first BPM attaining the maximal score.
State is `(bestBpm, bestScore, bestLag)`, initially `(120, -Infinity, 0)`. -/
def tempoScan (flux : List ℚ) (sr : ℚ) : Nat × WithBot ℚ × Int :=
  (List.range 111).foldl
    (fun st k =>
      let bpm : Nat := 70 + k
      let lag := jsRound (60 / (bpm : ℚ) * sr / 512)
      let score := dotAtLag flux lag
      if st.2.1 < score then (bpm, score, lag) else st)
    (120, ⊥, 0)

/-- `median` (lines 102-105): ascending sort, middle element, 0 on empty. -/
def median (a : List ℚ) : ℚ :=
  let b := a.mergeSort fun x y => decide (x ≤ y)
  if b.length = 0 then 0 else b.getD (b.length / 2) 0

/-- `pickPeaks` (lines 107-113): strict left / weak right local maxima
above the threshold, interior indices only. -/
def pickPeaks (arr : List ℚ) (thresh : ℚ) : List Nat :=
  (List.range arr.length).filter fun i =>
    decide (1 ≤ i ∧ i + 1 < arr.length ∧ thresh < arr.getD i 0 ∧
      arr.getD (i - 1) 0 < arr.getD i 0 ∧ arr.getD (i + 1) 0 ≤ arr.getD i 0)

/-- `alignmentScore` (lines 115-122): sum of flux at `start + i*lag` for
the 16 beats, skipping out-of-range indices. -/
def alignmentScore (flux : List ℚ) (start lag : Int) (beats : Nat) : ℚ :=
  (List.range beats).foldl
    (fun s i =>
      let idx := start + lag * (i : Int)
      if 0 ≤ idx ∧ idx < (flux.length : Int) then s + flux.getD idx.toNat 0 else s) 0

/-- The refinement loop (lines 54-62): among the first 200 peaks pick the
one maximizing the 16-beat alignment, starting from `(peaks[0] or 0, -∞)`. -/
def refineStart (flux : List ℚ) (peaks : List Nat) (bestLag : Int) : Nat :=
  ((List.range (min 200 peaks.length)).foldl
    (fun st k =>
      let s := peaks.getD k 0
      let align := alignmentScore flux (s : Int) bestLag 16
      if st.2 < (align : WithBot ℚ) then (s, (align : WithBot ℚ)) else st)
    (peaks.headD 0, (⊥ : WithBot ℚ))).1

/-- The beat-grid loop `for (let i = startIdx; i < nFrames; i += bestLag)`
(lines 63-64), on a structural step budget.  When `lag ≤ 0` and the entry
condition holds, the JavaScript loop never terminates; that divergence is
the `none` value (returned before any recursive call, so the budget is
never the reason for `none`). -/
def gridLoopF (n lag : Int) : Nat → Int → Option (List Int)
  | 0, i => if i < n then none else some []
  | fuel + 1, i =>
      if i < n then
        if lag ≤ 0 then none
        else (gridLoopF n lag fuel (i + lag)).map fun rest => i :: rest
      else some []

/-- The beat-grid loop with a sufficient budget: with `lag ≥ 1` the loop
runs at most `(n - i)` iterations, so the budget is never exhausted and
`none` means exactly that the JavaScript loop diverges. -/
def gridLoop (n lag i : Int) : Option (List Int) :=
  gridLoopF n lag ((n - i).toNat + 1) i

/-- `analyzeBuffer(buffer)` (lines 6-79), parametrized by the square-root
function used for the RMS envelope.  Returns `none` exactly when the
beat-grid loop diverges. -/
def analyzeBuffer (sqrtQ : ℚ → ℚ) (w : Waveform) : Option AnalysisResult :=
  let mono := monoOf w
  let nFrames := nFramesOf w.length
  let rms := rmsOf sqrtQ mono nFrames
  let flux := smoothRad5 (fluxRaw rms nFrames)
  let best := tempoScan flux w.sampleRate
  let bestBpm := best.1
  let bestLag := best.2.2
  let peaks := pickPeaks flux (6/10 * median flux)
  let startIdx := refineStart flux peaks bestLag
  (gridLoop (nFrames : Int) bestLag (startIdx : Int)).map fun beatFrames =>
    { sampleRate := w.sampleRate
      duration := w.duration
      frames := nFrames
      hop := 512
      rms := rms
      onset := flux
      bpm := bestBpm
      beatTimes := beatFrames.map fun f => (f : ℚ) * 512 / w.sampleRate }

/-- On a single analysis frame the onset-flux array stays at its zero
initialisation, whatever the RMS values are. -/
theorem fluxRaw_one (rms : List ℚ) : fluxRaw rms 1 = [0] := by
  simp only [fluxRaw]
  rw [show List.range 1 = [0] from by decide]
  simp

/-! ## Claim C2: the analyzer on near-empty input -/

/-- C2 (failing input): on a well-formed all-silent 100-sample mono buffer
at 44100 Hz, `analyzeBuffer` does NOT terminate.  There is a single
analysis frame, every tempo lag (29..74 frames) is out of range so every
autocorrelation score is `-Infinity`, the initial `bestLag = 0` is never
replaced, and the beat-grid loop `for (i = 0; i < 1; i += 0)` runs
forever.  The divergence is independent of the square-root function. -/
theorem C2_analyzeBuffer_hangs_on_short_input (sqrtQ : ℚ → ℚ) :
    analyzeBuffer sqrtQ ⟨44100, [List.replicate 100 0], 100, 100/44100⟩ = none := by
  have hn : nFramesOf (100 : Nat) = 1 := by decide
  simp only [analyzeBuffer, hn, fluxRaw_one, Option.map_eq_none']
  decide

/-! ## audio.js: the AudioEngine adapter -/

/-- `clamp` from noise.js line 76: `Math.max(min, Math.min(max, v))`. -/
def clampQ (v lo hi : ℚ) : ℚ := max lo (min hi v)

/-- `this.mode`, `'uploaded' | 'procedural'`. -/
inductive AudioMode where
  | uploaded
  | procedural
deriving DecidableEq

/-- The two fields of the analysis record that the adapter reads. -/
structure AnalysisLite where
  bpm : ℚ
  beatTimes : List ℚ
deriving DecidableEq

/-- The `AudioEngine` state (audio.js lines 22-40), with object references
modelled as flags / options.  `hasCtx` stands for `this.ctx !== null` (and
equally for the analyser, created together with the context);
`toneLoaded` for the global `window.Tone` being present. -/
structure EngineState where
  mode : AudioMode
  hasCtx : Bool
  startTime : ℚ
  inOffset : ℚ
  buffer : Option ℚ
  analysis : Option AnalysisLite
  sourceActive : Bool
  procActive : Bool
  toneLoaded : Bool
  toneConnected : Bool
deriving DecidableEq

/-- The constructor state (audio.js lines 23-40): uploaded mode, nothing
created or loaded yet. -/
def initEngine : EngineState :=
  { mode := .uploaded, hasCtx := false, startTime := 0, inOffset := 0,
    buffer := none, analysis := none, sourceActive := false,
    procActive := false, toneLoaded := false, toneConnected := false }

/-- `AudioEngine.stop` (lines 124-142): drops the buffer source and the
procedural system and disconnects Tone; `mode`, `startTime`, `inOffset`,
`buffer`, `analysis` and the context are left untouched. -/
def stop (s : EngineState) : EngineState :=
  { s with sourceActive := false, procActive := false, toneConnected := false }

/-- `AudioEngine.getDuration` (lines 145-149); `Infinity` is `⊤`. -/
def getDuration (s : EngineState) : WithTop ℚ :=
  if s.mode = .uploaded ∧ s.buffer.isSome then ((s.buffer.getD 0 : ℚ) : WithTop ℚ)
  else if s.mode = .procedural ∧ s.procActive then ⊤
  else 0

/-- `AudioEngine.getTime` (lines 151-160).  External clock inputs:
`ctxNow` is `this.ctx.currentTime`, `toneSeconds` is
`Tone.Transport.seconds`. -/
def getTime (s : EngineState) (ctxNow toneSeconds : ℚ) : ℚ :=
  if s.hasCtx = false then 0
  else if s.mode = .uploaded then
    WithTop.untop' 0
      (min ((ctxNow - s.startTime + s.inOffset : ℚ) : WithTop ℚ) (getDuration s))
  else if s.mode = .procedural ∧ s.toneLoaded then toneSeconds
  else 0

/-- `AudioEngine.getLevel` (lines 163-171): RMS over the analyser's
time-domain buffer (`tap`, supplied by the external audio graph), scaled
by 4.5 and clamped to `[0, 1]`.  `Math.sqrt` is abstracted by `sqrtQ`. -/
def getLevel (s : EngineState) (sqrtQ : ℚ → ℚ) (tap : List ℚ) : ℚ :=
  if s.hasCtx = false then 0
  else
    clampQ (sqrtQ ((tap.foldl (fun acc v => acc + v * v) 0) / (tap.length : ℚ)) * (45/10)) 0 1

/-- The binary-search loop of `getBeatPulse` (line 184-185):
`while (lo <= hi) { mid = (lo+hi)>>1; if (beats[mid] < t) lo = mid+1; else
hi = mid-1 }`, returning the final `lo`.  The structural budget only
bounds the recursion: the interval shrinks every iteration, so a budget of
`beats.length + 1` is never exhausted. -/
def bsearchGo (beats : List ℚ) (t : ℚ) : Nat → Int → Int → Int
  | 0, lo, _ => lo
  | fuel + 1, lo, hi =>
      if lo ≤ hi then
        let mid := (lo + hi) / 2
        if beats.getD mid.toNat 0 < t then bsearchGo beats t fuel (mid + 1) hi
        else bsearchGo beats t fuel lo (mid - 1)
      else lo

/-- The uploaded-mode grid computation of `getBeatPulse`
(audio.js lines 182-189): binary-search the grid, clamp the final `lo`
into range, and evaluate the 120 ms triangular window at the distance to
that single entry. -/
def beatPulseGrid (beats : List ℚ) (t : ℚ) : ℚ :=
  if beats.length = 0 then 0
  else
    let lo := bsearchGo beats t (beats.length + 1) 0 ((beats.length : Int) - 1)
    let idx := max 0 (min ((beats.length : Int) - 1) lo)
    let d := |t - beats.getD idx.toNat 0|
    if d < 12/100 then 1 - d / (12/100) else 0

/-- `AudioEngine.getBeatPulse` (lines 174-192).  External inputs: the
clocks of `getTime` and `toneQuarterSec` = `Tone.Time('4n').toSeconds()`.
`t % beat` is JavaScript `%` (truncating fmod; the arguments are
nonnegative in every reachable call, where it agrees with the floor-based
form used here). -/
def getBeatPulse (s : EngineState) (ctxNow toneSeconds toneQuarterSec : ℚ) : ℚ :=
  if s.mode = .procedural ∧ s.toneLoaded then
    let beat := toneQuarterSec
    let t := getTime s ctxNow toneSeconds
    let phase := (t - beat * (⌊t / beat⌋ : ℚ)) / beat
    if phase < 15/100 then 1 - phase / (15/100) else 0
  else
    match s.mode, s.analysis with
    | .uploaded, some a => beatPulseGrid a.beatTimes (getTime s ctxNow toneSeconds)
    | _, _ => 0

/-- `AudioEngine.getBarSeconds` (lines 194-201).  `toneMeasureSec` is
`Tone.Time('1m').toSeconds()`.  The `Number.isFinite` guard on `bpm` is
always true in the exact-rational model. -/
def getBarSeconds (s : EngineState) (toneMeasureSec : ℚ) : ℚ :=
  if s.mode = .procedural ∧ s.toneLoaded then toneMeasureSec
  else
    match s.mode, s.analysis with
    | .uploaded, some a => 60 / (a.bpm / 4)
    | _, _ => 2

/-- A concrete engine session: uploaded mode, context created, a 10 s
track loaded and analyzed, playback started at context time 0 with
offset 0. -/
def runningUploaded : EngineState :=
  { mode := .uploaded, hasCtx := true, startTime := 0, inOffset := 0,
    buffer := some 10, analysis := some ⟨120, [0, 1]⟩, sourceActive := true,
    procActive := false, toneLoaded := false, toneConnected := false }

/-! ## Claim C1: beatPulse in uploaded mode -/

/-- The number of beats strictly before `t`; for a `≤`-sorted grid this is
the index of the first beat at/after `t` (`beats.length` when there is
none). -/
def lowerIdx (beats : List ℚ) (t : ℚ) : Nat := beats.countP fun b => decide (b < t)

/-- Modelled from the claim C1 wording: the distance used is to the
NEARER of the first beat at/after `t` and the preceding beat. -/
def beatPulseNearest (beats : List ℚ) (t : ℚ) : ℚ :=
  if beats.length = 0 then 0
  else
    let lo := lowerIdx beats t
    let dNext := if lo < beats.length then |t - beats.getD lo 0|
      else |t - beats.getD (beats.length - 1) 0|
    let dPrev := if 0 < lo then |t - beats.getD (lo - 1) 0| else dNext
    let d := min dNext dPrev
    if d < 12/100 then 1 - d / (12/100) else 0

theorem countP_of_split (p : ℚ → Bool) :
    ∀ (l : List ℚ) (k : Nat), k ≤ l.length →
      (∀ (i : Nat) (hi : i < l.length), i < k → p (l.get ⟨i, hi⟩) = true) →
      (∀ (i : Nat) (hi : i < l.length), k ≤ i → p (l.get ⟨i, hi⟩) = false) →
      l.countP p = k
  | [], 0, _, _, _ => by simp
  | [], k + 1, h, _, _ => by simp at h
  | a :: tl, 0, _, _, hhigh => by
      have ha : p a = false := hhigh 0 (by simp) (by omega)
      have htl : tl.countP p = 0 :=
        countP_of_split p tl 0 (by omega) (fun i hi h0 => by omega)
          (fun i hi _ => hhigh (i + 1) (by simpa using Nat.succ_lt_succ hi) (by omega))
      simp [List.countP_cons, ha, htl]
  | a :: tl, k + 1, h, hlow, hhigh => by
      have ha : p a = true := hlow 0 (by simp) (by omega)
      have htl : tl.countP p = k :=
        countP_of_split p tl k (by simpa using h)
          (fun i hi hik => hlow (i + 1) (by simpa using Nat.succ_lt_succ hi) (by omega))
          (fun i hi hik => hhigh (i + 1) (by simpa using Nat.succ_lt_succ hi) (by omega))
      simp [List.countP_cons, ha, htl]

theorem sorted_getD_mono {beats : List ℚ} (hs : beats.Sorted (· ≤ ·))
    {i j : Nat} (hij : i ≤ j) (hj : j < beats.length) :
    beats.getD i 0 ≤ beats.getD j 0 := by
  have hi : i < beats.length := Nat.lt_of_le_of_lt hij hj
  rw [List.getD_eq_getElem _ _ hi, List.getD_eq_getElem _ _ hj]
  rcases Nat.lt_or_ge i j with hlt | hge
  · exact hs.rel_get_of_lt (by simpa using hlt)
  · have : i = j := by omega
    subst this
    exact le_refl _

/-- Invariant-based characterization of the binary-search loop: starting
from a window `[lo, hi]` whose outside is already classified, the final
`lo` splits the sorted grid into the prefix strictly below `t` and the
suffix at/after `t`. -/
theorem bsearchGo_inv (beats : List ℚ) (t : ℚ) (hs : beats.Sorted (· ≤ ·)) :
    ∀ (fuel : Nat) (lo hi : Int), 0 ≤ lo → lo ≤ hi + 1 → hi < (beats.length : Int) →
      (hi + 1 - lo).toNat ≤ fuel →
      (∀ i : Nat, (i : Int) < lo → beats.getD i 0 < t) →
      (∀ i : Nat, hi < (i : Int) → i < beats.length → ¬ beats.getD i 0 < t) →
      0 ≤ bsearchGo beats t fuel lo hi ∧
      bsearchGo beats t fuel lo hi ≤ (beats.length : Int) ∧
      (∀ i : Nat, (i : Int) < bsearchGo beats t fuel lo hi → beats.getD i 0 < t) ∧
      (∀ i : Nat, bsearchGo beats t fuel lo hi ≤ (i : Int) → i < beats.length →
        ¬ beats.getD i 0 < t)
  | 0, lo, hi => by
      intro h0 h1 h2 hfuel hlow hhigh
      have hl : lo = hi + 1 := by omega
      simp only [bsearchGo]
      refine ⟨h0, by omega, hlow, fun i hi2 hi3 => hhigh i (by omega) hi3⟩
  | fuel + 1, lo, hi => by
      intro h0 h1 h2 hfuel hlow hhigh
      by_cases hlh : lo ≤ hi
      · have hmid1 : lo ≤ (lo + hi) / 2 := by omega
        have hmid2 : (lo + hi) / 2 ≤ hi := by omega
        by_cases hcmp : beats.getD ((lo + hi) / 2).toNat 0 < t
        · have hres : bsearchGo beats t (fuel + 1) lo hi =
              bsearchGo beats t fuel ((lo + hi) / 2 + 1) hi := by
            simp only [bsearchGo, if_pos hlh, if_pos hcmp]
          rw [hres]
          refine bsearchGo_inv beats t hs fuel ((lo + hi) / 2 + 1) hi (by omega) (by omega) h2
            (by omega) ?_ hhigh
          intro i hi2
          have hile : i ≤ ((lo + hi) / 2).toNat := by omega
          have hmidlen : ((lo + hi) / 2).toNat < beats.length := by omega
          exact lt_of_le_of_lt (sorted_getD_mono hs hile hmidlen) hcmp
        · have hres : bsearchGo beats t (fuel + 1) lo hi =
              bsearchGo beats t fuel lo ((lo + hi) / 2 - 1) := by
            simp only [bsearchGo, if_pos hlh, if_neg hcmp]
          rw [hres]
          refine bsearchGo_inv beats t hs fuel lo ((lo + hi) / 2 - 1) h0 (by omega)
            (by omega) (by omega) hlow ?_
          intro i hi2 hi3
          have hge : ((lo + hi) / 2).toNat ≤ i := by omega
          exact fun hcon => hcmp (lt_of_le_of_lt (sorted_getD_mono hs hge hi3) hcon)
      · have hres : bsearchGo beats t (fuel + 1) lo hi = lo := by
          simp only [bsearchGo, if_neg hlh]
        rw [hres]
        exact ⟨h0, by omega, hlow, fun i hi2 hi3 => hhigh i (by omega) hi3⟩

/-- The binary search as invoked by `getBeatPulse` computes exactly the
count of beats strictly before `t`. -/
theorem bsearchGo_eq_lowerIdx (beats : List ℚ) (t : ℚ) (hs : beats.Sorted (· ≤ ·)) :
    bsearchGo beats t (beats.length + 1) 0 ((beats.length : Int) - 1) =
      (lowerIdx beats t : Int) := by
  obtain ⟨h0, h1, h2, h3⟩ :=
    bsearchGo_inv beats t hs (beats.length + 1) 0 ((beats.length : Int) - 1)
      (by omega) (by omega) (by omega) (by omega)
      (fun i hi => by omega) (fun i hi hlen => by omega)
  have hcount : beats.countP (fun b => decide (b < t)) =
      (bsearchGo beats t (beats.length + 1) 0 ((beats.length : Int) - 1)).toNat := by
    refine countP_of_split _ beats _ (by omega) ?_ ?_
    · intro i hi hik
      have := h2 i (by omega)
      rw [List.getD_eq_getElem _ _ hi] at this
      simpa using this
    · intro i hi hik
      have := h3 i (by omega) hi
      rw [List.getD_eq_getElem _ _ hi] at this
      simpa using this
  simp only [lowerIdx]
  omega

/-- The splitting property of `lowerIdx` on a sorted grid: everything
before it is strictly below `t`, everything from it on is at/after `t`. -/
theorem lowerIdx_split (beats : List ℚ) (t : ℚ) (hs : beats.Sorted (· ≤ ·)) :
    lowerIdx beats t ≤ beats.length ∧
    (∀ i : Nat, i < lowerIdx beats t → beats.getD i 0 < t) ∧
    (∀ i : Nat, lowerIdx beats t ≤ i → i < beats.length → ¬ beats.getD i 0 < t) := by
  obtain ⟨h0, h1, h2, h3⟩ :=
    bsearchGo_inv beats t hs (beats.length + 1) 0 ((beats.length : Int) - 1)
      (by omega) (by omega) (by omega) (by omega)
      (fun i hi => by omega) (fun i hi hlen => by omega)
  rw [bsearchGo_eq_lowerIdx beats t hs] at h1 h2 h3
  exact ⟨by omega, fun i hi => h2 i (by omega), fun i hi hlen => h3 i (by omega) hlen⟩

/-- `beatPulseGrid` in terms of `lowerIdx`: the distance measured is to
the single entry at the clamped index of the first beat at/after `t`. -/
theorem beatPulseGrid_closed_form (beats : List ℚ) (t : ℚ)
    (hs : beats.Sorted (· ≤ ·)) (hne : beats ≠ []) :
    beatPulseGrid beats t =
      if |t - beats.getD (min (beats.length - 1) (lowerIdx beats t)) 0| < 12/100
      then 1 - |t - beats.getD (min (beats.length - 1) (lowerIdx beats t)) 0| / (12/100)
      else 0 := by
  have hlen : 0 < beats.length := List.length_pos.mpr hne
  have hL : lowerIdx beats t ≤ beats.length := (lowerIdx_split beats t hs).1
  have hidx : (max 0 (min ((beats.length : Int) - 1)
      (bsearchGo beats t (beats.length + 1) 0 ((beats.length : Int) - 1)))).toNat =
      min (beats.length - 1) (lowerIdx beats t) := by
    rw [bsearchGo_eq_lowerIdx beats t hs]
    omega
  simp only [beatPulseGrid, if_neg (by omega : ¬ beats.length = 0), hidx]

/-- C1 (amended): in uploaded mode with a sorted non-empty grid,
`getBeatPulse` evaluates the 120 ms triangular window at the distance
from `t` to the FIRST beat at/after `t` (clamped to the last beat when
`t` is past the whole grid) — not to the nearer of that beat and the
preceding one.  It still returns exactly 1.0 when `t` equals a beat time
and 0.0 when `t` is at least 120 ms from every beat, but immediately
after a beat (other than the last) the pulse is 0 rather than a ramp,
because the preceding beat is never considered. -/
theorem C1_beatPulse_first_at_or_after (s : EngineState)
    (ctxNow toneSeconds toneQuarterSec : ℚ) (a : AnalysisLite)
    (hm : s.mode = .uploaded) (ha : s.analysis = some a)
    (hs : a.beatTimes.Sorted (· ≤ ·)) (hne : a.beatTimes ≠ []) :
    getBeatPulse s ctxNow toneSeconds toneQuarterSec =
      beatPulseGrid a.beatTimes (getTime s ctxNow toneSeconds) ∧
    (∀ t : ℚ, beatPulseGrid a.beatTimes t =
      if |t - a.beatTimes.getD (min (a.beatTimes.length - 1) (lowerIdx a.beatTimes t)) 0|
          < 12/100
      then 1 -
        |t - a.beatTimes.getD (min (a.beatTimes.length - 1) (lowerIdx a.beatTimes t)) 0|
          / (12/100)
      else 0) ∧
    (∀ t : ℚ, t ∈ a.beatTimes → beatPulseGrid a.beatTimes t = 1) ∧
    (∀ t : ℚ, (∀ b ∈ a.beatTimes, 12/100 ≤ |t - b|) → beatPulseGrid a.beatTimes t = 0) := by
  have hlen : 0 < a.beatTimes.length := List.length_pos.mpr hne
  refine ⟨?_, fun t => beatPulseGrid_closed_form a.beatTimes t hs hne, ?_, ?_⟩
  · simp [getBeatPulse, hm, ha]
  · intro t ht
    obtain ⟨k, hk, hbk⟩ := List.getElem_of_mem ht
    obtain ⟨hL, hbelow, habove⟩ := lowerIdx_split a.beatTimes t hs
    have hLk : lowerIdx a.beatTimes t ≤ k := by
      by_contra hcon
      have := hbelow k (by omega)
      rw [List.getD_eq_getElem _ _ hk, hbk] at this
      exact absurd this (lt_irrefl t)
    have hLlen : lowerIdx a.beatTimes t < a.beatTimes.length := by omega
    have hge : ¬ a.beatTimes.getD (lowerIdx a.beatTimes t) 0 < t :=
      habove _ (le_refl _) hLlen
    have hle : a.beatTimes.getD (lowerIdx a.beatTimes t) 0 ≤ t := by
      have := sorted_getD_mono hs hLk hk
      rw [List.getD_eq_getElem _ _ hk, hbk] at this
      exact this
    have heq : a.beatTimes.getD (lowerIdx a.beatTimes t) 0 = t :=
      le_antisymm hle (not_lt.mp hge)
    have hmin : min (a.beatTimes.length - 1) (lowerIdx a.beatTimes t) =
        lowerIdx a.beatTimes t := by omega
    rw [beatPulseGrid_closed_form a.beatTimes t hs hne, hmin, heq]
    norm_num
  · intro t hfar
    rw [beatPulseGrid_closed_form a.beatTimes t hs hne]
    have hidx : min (a.beatTimes.length - 1) (lowerIdx a.beatTimes t) <
        a.beatTimes.length := by omega
    have hmem : a.beatTimes.getD (min (a.beatTimes.length - 1) (lowerIdx a.beatTimes t)) 0 ∈
        a.beatTimes := by
      rw [List.getD_eq_getElem _ _ hidx]
      exact List.getElem_mem hidx
    exact if_neg (not_lt.mpr (hfar _ hmem))

/-- Witness for C1 (amended) on the running demo session (grid `[0, 1]`),
queried at context time `1/2`. -/
theorem C1_beatPulse_first_at_or_after_witness :
    (runningUploaded.mode = .uploaded) ∧
    (runningUploaded.analysis = some ⟨120, [0, 1]⟩) ∧
    ((⟨120, [0, 1]⟩ : AnalysisLite).beatTimes.Sorted (· ≤ ·)) ∧
    ((⟨120, [0, 1]⟩ : AnalysisLite).beatTimes ≠ []) ∧
    (getBeatPulse runningUploaded (1/2) 0 0 =
      beatPulseGrid [0, 1] (getTime runningUploaded (1/2) 0) ∧
    (∀ t : ℚ, beatPulseGrid [0, 1] t =
      if |t - List.getD [0, 1] (min (List.length [0, 1] - 1) (lowerIdx [0, 1] t)) 0|
          < 12/100
      then 1 -
        |t - List.getD [0, 1] (min (List.length [0, 1] - 1) (lowerIdx [0, 1] t)) 0|
          / (12/100)
      else 0) ∧
    (∀ t : ℚ, t ∈ [(0 : ℚ), 1] → beatPulseGrid [0, 1] t = 1) ∧
    (∀ t : ℚ, (∀ b ∈ [(0 : ℚ), 1], 12/100 ≤ |t - b|) → beatPulseGrid [0, 1] t = 0)) :=
  ⟨by decide, by decide, by decide, by decide,
    C1_beatPulse_first_at_or_after runningUploaded (1/2) 0 0 ⟨120, [0, 1]⟩
      (by decide) (by decide) (by decide) (by decide)⟩

/-- C1 counterexample: grid `[0, 1]`, `t = 0.05`.  The nearest beat is 0
at distance 0.05 < 0.12, so the claim demands `1 - 0.05/0.12 = 7/12`; the
code binary-searches to the NEXT beat (1, distance 0.95) and returns 0.
The engine call reproduces it end to end: with the demo session stopped
at nothing, context time 0.05 gives `getTime = 0.05`. -/
theorem C1_counterexample :
    beatPulseNearest [0, 1] (1/20) = 7/12 ∧
    getBeatPulse runningUploaded (1/20) 0 0 = 0 ∧
    beatPulseNearest [0, 1] (1/20) ≠ getBeatPulse runningUploaded (1/20) 0 0 := by
  have h1 : beatPulseNearest [0, 1] (1/20) = 7/12 := by decide
  have h2 : getBeatPulse runningUploaded (1/20) 0 0 = 0 := by decide
  refine ⟨h1, h2, ?_⟩
  rw [h1, h2]
  norm_num

/-! ## Claim C7: defaults on the uninitialized adapter -/

/-- C7: on the constructor state (no source started, no analysis),
`getBeatPulse` returns 0 and `getBarSeconds` returns the safe default
2.0 s, for arbitrary external clock inputs.  Both are total functions of
the state: the per-frame path cannot throw. -/
theorem C7_uninitialized_defaults (ctxNow toneSeconds toneQuarterSec toneMeasureSec : ℚ) :
    getBeatPulse initEngine ctxNow toneSeconds toneQuarterSec = 0 ∧
    getBarSeconds initEngine toneMeasureSec = 2 :=
  ⟨rfl, rfl⟩

/-! ## Claim C6: behaviour after stop -/

/-- C6 counterexample: the demo session `runningUploaded`, stopped.  Five seconds of
external clock later, `getTime` returns 5, not the quiescent 0 the claim
asserts: `stop` clears the source but leaves `mode`, `startTime` and the
buffer, so the uploaded branch still computes
`min(now - startTime + inOffset, duration)`. -/
theorem C6_counterexample :
    getTime (stop runningUploaded) 5 0 = 5 ∧ (5 : ℚ) ≠ 0 :=
  ⟨by decide, by norm_num⟩

theorem foldl_sq_eq (l : List ℚ) (h : ∀ v ∈ l, v = 0) :
    ∀ acc : ℚ, l.foldl (fun a v => a + v * v) acc = acc := by
  induction l with
  | nil => intro acc; rfl
  | cons x xs ih =>
      intro acc
      have hx : x = 0 := h x (by simp)
      have hxs : ∀ v ∈ xs, v = 0 := fun v hv => h v (by simp [hv])
      simp [hx, ih hxs]

/-- C6 (amended): after `stop` the source and procedural references are
cleared and `level()` on the now-silent tap returns 0 (and the per-frame
reads remain total, hence never throw); but `currentTime()` is NOT reset:
without a context it returns 0, while in uploaded mode with a loaded
buffer it keeps returning `min(elapsed + offset, duration)`, which keeps
advancing with the external clock up to the track duration. -/
theorem C6_stop_quiescence (s : EngineState) (now tone : ℚ) (sqrtQ : ℚ → ℚ)
    (tap : List ℚ) (hsq : sqrtQ 0 = 0) (htap : ∀ v ∈ tap, v = 0) :
    (stop s).sourceActive = false ∧ (stop s).procActive = false ∧
    getLevel (stop s) sqrtQ tap = 0 ∧
    (s.hasCtx = false → getTime (stop s) now tone = 0) ∧
    (s.hasCtx = true → s.mode = .uploaded → s.buffer.isSome = true →
      getTime (stop s) now tone =
        WithTop.untop' 0 (min ((now - s.startTime + s.inOffset : ℚ) : WithTop ℚ)
          ((s.buffer.getD 0 : ℚ) : WithTop ℚ))) := by
  refine ⟨rfl, rfl, ?_, ?_, ?_⟩
  · unfold getLevel stop
    cases hc : s.hasCtx with
    | false => simp
    | true =>
        simp only [Bool.true_eq_false, if_false]
        rw [foldl_sq_eq tap htap 0, zero_div, hsq, zero_mul]
        simp [clampQ]
  · intro hc
    simp [getTime, stop, hc]
  · intro hc hm hb
    simp [getTime, stop, getDuration, hc, hm, hb]

/-- Witness for C6 (amended) at the concrete stopped engine, a silent
two-sample tap and the identity in place of the square root. -/
theorem C6_stop_quiescence_witness :
    ((fun q : ℚ => q) 0 = 0) ∧ (∀ v ∈ [(0 : ℚ), 0], v = 0) ∧
    ((stop runningUploaded).sourceActive = false ∧
      (stop runningUploaded).procActive = false ∧
      getLevel (stop runningUploaded) (fun q => q) [0, 0] = 0 ∧
      (runningUploaded.hasCtx = false → getTime (stop runningUploaded) 7 0 = 0) ∧
      (runningUploaded.hasCtx = true → runningUploaded.mode = .uploaded →
        runningUploaded.buffer.isSome = true →
        getTime (stop runningUploaded) 7 0 =
          WithTop.untop' 0
            (min ((7 - runningUploaded.startTime + runningUploaded.inOffset : ℚ) : WithTop ℚ)
              ((runningUploaded.buffer.getD 0 : ℚ) : WithTop ℚ)))) :=
  ⟨rfl, by decide,
    C6_stop_quiescence runningUploaded 7 0 (fun q => q) [0, 0] rfl (by decide)⟩

/-! ## visuals.js: the Visuals per-frame update

The model keeps the state that feeds back into later frames: the noise
table, the seeded random stream, the smoothed loudness, the style numbers,
the base and live vertex positions, the mesh rotation and the shape-cycle
schedule.  Writes to external scene objects that never feed back (material
colours, fog, camera position) are omitted.  Geometry construction lives
in the external 3D library, so the base vertices of each shape are
supplied by a `shapeBase` capability. -/

noncomputable section

/-- The five shapes of the auto-cycle (visuals.js line 248). -/
inductive ShapeKind where
  | sphere
  | icosa
  | torus
  | plane
  | box
deriving DecidableEq

/-- `['sphere','icosa','torus','plane','box']`. -/
def shapesList : List ShapeKind := [.sphere, .icosa, .torus, .plane, .box]

/-- The numeric style parameters consumed by the update path. -/
structure Style where
  hue : ℚ
  saturation : ℚ
  lightness : ℚ
  emissive : ℚ
  noiseScale : ℚ
  displaceAmp : ℚ
  rotateBase : ℚ
  cameraDrift : ℚ
  audioReact : ℚ
deriving DecidableEq

/-- The defaults of visuals.js line 95. -/
def defaultStyle : Style :=
  { hue := 66/100, saturation := 1/2, lightness := 58/100, emissive := 6/10,
    noiseScale := 11/20, displaceAmp := 85/100, rotateBase := 12/100,
    cameraDrift := 1, audioReact := 35/100 }

/-- The `Visuals` mutable state.  `level = 0` stands for both the initial
`undefined` and an actual 0 (they behave identically: both are falsy).
`nextShapeAt = 0` / `barSeconds = 0` likewise model unset schedule
fields. -/
structure VisState where
  perm : List Nat
  randState : Nat
  level : ℚ
  style : Style
  timeScale : ℚ
  shape : ShapeKind
  basePositions : List (ℚ × ℚ × ℚ)
  positions : List (ℝ × ℝ × ℝ)
  rotY : ℝ
  rotX : ℝ
  nextShapeAt : ℚ
  barSeconds : ℚ

def castTriple (p : ℚ × ℚ × ℚ) : ℝ × ℝ × ℝ := ((p.1 : ℝ), (p.2.1 : ℝ), (p.2.2 : ℝ))

/-- Line 205: `this.level = this.level ? this.level*0.85 + level*0.15 :
level`.  The ternary tests TRUTHINESS of the previous smoothed value, so
a previous value of 0 (or the initial `undefined`) re-initializes to the
incoming level instead of filtering. -/
def smoothUpdate (prev lvl : ℚ) : ℚ :=
  if prev ≠ 0 then prev * (85/100) + lvl * (15/100) else lvl

/-- `_scheduleNextShape(t, barSeconds)` (line 198):
`this._nextShapeAt = t + 16 * (barSeconds || 7.5)`. -/
def scheduleNextShape (t barSeconds : ℚ) : ℚ :=
  t + 16 * (if barSeconds ≠ 0 then barSeconds else 15/2)

/-- The per-vertex displacement of lines 233-238: sample 5-octave fBm at
the base position scaled by `noiseScale`, time-offset on x, fixed offsets
on y/z, then scale the base vertex uniformly by `1 + amp * n`. -/
def displacedVertex (perm : List Nat) (style : Style) (timeScale t : ℚ) (amp : ℝ)
    (p : ℚ × ℚ × ℚ) : ℝ × ℝ × ℝ :=
  let n : ℚ := fbm3 perm (p.1 * style.noiseScale + t * timeScale)
    (p.2.1 * style.noiseScale + 3123/1000) (p.2.2 * style.noiseScale - 1789/1000) 5 2 (1/2)
  let d : ℝ := 1 + amp * (n : ℝ)
  ((p.1 : ℝ) * d, (p.2.1 : ℝ) * d, (p.2.2 : ℝ) * d)

/-- The `Visuals` constructor (lines 66-111): noise field and random
stream seeded identically, defaults everywhere, sphere mesh built and its
base positions snapshotted; no schedule armed. -/
def initVis (shapeBase : ShapeKind → List (ℚ × ℚ × ℚ)) (seed : SeedInput) : VisState :=
  { perm := setSeedPerm (seedVal seed), randState := seedVal seed, level := 0,
    style := defaultStyle, timeScale := 1/4, shape := .sphere,
    basePositions := shapeBase .sphere,
    positions := (shapeBase .sphere).map castTriple,
    rotY := 0, rotX := 0, nextShapeAt := 0, barSeconds := 0 }

/-- `Visuals.update({t, level, beatPulse, autoShape})` (lines 200-257):
smooth the loudness, derive the pulse (`Math.pow` is `Real.rpow`),
displace every vertex from the immutable base snapshot, rotate, then run
the shape-cycle check: if armed and due, pick
`shapes[Math.floor(rand()*5)]`, rebuild the mesh (fresh geometry, fresh
rotation, new base snapshot) and re-arm 16 bars ahead.  Returns the new
state and the fired shape, if any. -/
def update (shapeBase : ShapeKind → List (ℚ × ℚ × ℚ)) (s : VisState)
    (t lvl beatPulse : ℚ) (autoShape : Bool) : VisState × Option ShapeKind :=
  let level2 := smoothUpdate s.level lvl
  let pulse : ℝ := max ((beatPulse : ℚ) : ℝ) (((clampQ level2 0 1 : ℚ) : ℝ) ^ ((9 : ℝ)/10))
  let amp : ℝ := (s.style.displaceAmp : ℝ) * (6/10 + (s.style.audioReact : ℝ) * pulse)
  let newPos := s.basePositions.map (displacedVertex s.perm s.style s.timeScale t amp)
  let rot : ℝ := (s.style.rotateBase : ℝ) + 2/10 * pulse
  if autoShape = true ∧ s.nextShapeAt ≠ 0 ∧ s.nextShapeAt ≤ t then
    let a2 := (mulberryStep s.randState).1
    let o := (mulberryStep s.randState).2
    let idx := o * 5 / M32
    let newShape := shapesList.getD idx .sphere
    let base2 := shapeBase newShape
    ({ s with
        level := level2, positions := base2.map castTriple,
        basePositions := base2, shape := newShape, randState := a2,
        rotY := 0, rotX := 0,
        nextShapeAt :=
          scheduleNextShape t (if s.barSeconds ≠ 0 then s.barSeconds else 15/2) },
      some newShape)
  else
    ({ s with
        level := level2, positions := newPos,
        rotY := s.rotY + rot * (16/1000), rotX := s.rotX + rot * (9/1000) }, none)

/-- The bar length the scheduler uses: `this._barSeconds || 7.5`. -/
def barUsed (s : VisState) : ℚ := if s.barSeconds ≠ 0 then s.barSeconds else 15/2

/-- A one-vertex geometry provider used for the concrete instances: every
shape consists of the single base vertex `(1, 0, 0)`. -/
def cexGeom : ShapeKind → List (ℚ × ℚ × ℚ) := fun _ => [(1, 0, 0)]

/-- A freshly constructed deformer over `cexGeom` at the default seed. -/
def demoVis : VisState := initVis cexGeom (.num 123456)

/-- The fresh deformer after its smoothed loudness has reached 1 (one
frame of full loudness does exactly that). -/
def demoLoud : VisState := { demoVis with level := 1 }

/-- The fresh deformer with the shape cycle armed at `nextShapeAt = 1`
and a 2 s bar length. -/
def demoSched : VisState := { demoVis with nextShapeAt := 1, barSeconds := 2 }

/-! ## Claim C3: the loudness smoothing -/

/-- C3 counterexample: with previous smoothed value 0 and incoming level
1, the update sets the smoothed level to 1 (re-initialisation through the
falsy test), NOT to `0*0.85 + 1*0.15 = 0.15` as the claim asserts for
"whatever the previous smoothed value is (including 0)". -/
theorem C3_counterexample :
    demoVis.level = 0 ∧
    (update cexGeom demoVis 0 1 0 false).1.level = 1 ∧
    (0 : ℚ) * (85/100) + 1 * (15/100) ≠ 1 := by
  refine ⟨rfl, ?_, by norm_num⟩
  simp [update, smoothUpdate, demoVis, initVis]

/-- C3 (amended): the smoothing is the one-pole filter
`prev*0.85 + level*0.15` only when the previous smoothed value is
NONZERO; on the first call, and on any call where the previous smoothed
value is 0 (both are falsy in the ternary of line 205), the smoothed
level is re-initialised to the incoming level. -/
theorem C3_level_smoothing (shapeBase : ShapeKind → List (ℚ × ℚ × ℚ)) (s : VisState)
    (t lvl bp : ℚ) (auto : Bool) :
    (s.level ≠ 0 →
      (update shapeBase s t lvl bp auto).1.level = s.level * (85/100) + lvl * (15/100)) ∧
    (s.level = 0 → (update shapeBase s t lvl bp auto).1.level = lvl) := by
  constructor <;> intro h <;>
    · simp only [update]
      split <;> simp [smoothUpdate, h]

/-- Witness for C3 (amended): both branches at concrete states. -/
theorem C3_level_smoothing_witness :
    (demoLoud.level ≠ 0 ∧
      (update cexGeom demoLoud 0 5 0 false).1.level =
        demoLoud.level * (85/100) + 5 * (15/100)) ∧
    (demoVis.level = 0 ∧ (update cexGeom demoVis 0 5 0 false).1.level = 5) :=
  ⟨⟨by norm_num [demoLoud, demoVis, initVis],
      (C3_level_smoothing cexGeom demoLoud 0 5 0 false).1
        (by norm_num [demoLoud, demoVis, initVis])⟩,
    ⟨rfl, (C3_level_smoothing cexGeom demoVis 0 5 0 false).2 rfl⟩⟩

/-! ## Claim C5: the shape-cycle scheduler -/

theorem barUsed_pos (s : VisState) (hbar : 0 ≤ s.barSeconds) : 0 < barUsed s := by
  unfold barUsed
  by_cases hb : s.barSeconds ≠ 0
  · rw [if_pos hb]
    exact lt_of_le_of_ne hbar (Ne.symm hb)
  · rw [if_neg hb]
    norm_num

/-- C5: for an armed schedule (`nextShapeAt > 0`, as produced by
`scheduleAutoShape` at nonnegative times) with a nonneg bar setting, and
any two tick times `t ≤ t2` with a step of at most one bar length:
the tick never fires strictly before `nextShapeAt`; it fires exactly at
the first tick past it, selecting the shape `shapes[Math.floor(u*5)]`
from the next draw `u` of the seeded stream (consuming that draw), with
the index partitioned uniformly over the five equal fifths of `[0, 1)`;
it re-arms to `t + 16 * (barSeconds || 7.5)`; and the following tick
cannot fire again (no double-fire), so each crossing fires exactly
once. -/
theorem C5_shape_cycle_tick (shapeBase : ShapeKind → List (ℚ × ℚ × ℚ)) (s : VisState)
    (t t2 lvl bp lvl2 bp2 : ℚ)
    (harm : 0 < s.nextShapeAt) (hbar : 0 ≤ s.barSeconds)
    (h12 : t ≤ t2) (hstep : t2 ≤ t + barUsed s) :
    ((update shapeBase s t lvl bp true).2 ≠ none → s.nextShapeAt ≤ t) ∧
    (t < s.nextShapeAt → (update shapeBase s t lvl bp true).2 = none) ∧
    (s.nextShapeAt ≤ t →
      (update shapeBase s t lvl bp true).2 =
        some (shapesList.getD ((mulberryStep s.randState).2 * 5 / M32) .sphere) ∧
      (mulberryStep s.randState).2 * 5 / M32 < 5 ∧
      (update shapeBase s t lvl bp true).1.randState = (mulberryStep s.randState).1 ∧
      (update shapeBase s t lvl bp true).1.nextShapeAt = t + 16 * barUsed s ∧
      (update shapeBase (update shapeBase s t lvl bp true).1 t2 lvl2 bp2 true).2 = none) ∧
    (∀ k : Nat, k < 5 →
      ((mulberryStep s.randState).2 * 5 / M32 = k ↔
        (k : ℚ) / 5 ≤ ((mulberryStep s.randState).2 : ℚ) / (M32 : ℚ) ∧
        ((mulberryStep s.randState).2 : ℚ) / (M32 : ℚ) < ((k : ℚ) + 1) / 5)) := by
  have harm2 : s.nextShapeAt ≠ 0 := ne_of_gt harm
  have hbu : 0 < barUsed s := barUsed_pos s hbar
  have ho : (mulberryStep s.randState).2 < M32 := mulberryOut_lt s.randState
  have hM : (0 : ℚ) < (M32 : ℚ) := by norm_num [M32]
  have hM0 : 0 < M32 := by norm_num [M32]
  have hnofire : ∀ t3 : ℚ, t3 < s.nextShapeAt →
      (update shapeBase s t3 lvl bp true).2 = none := by
    intro t3 hlt
    have hle : ¬ (s.nextShapeAt ≤ t3) := not_le.mpr hlt
    simp [update, hle]
  refine ⟨?_, hnofire t, ?_, ?_⟩
  · intro hne
    by_contra ht
    exact hne (hnofire t (not_le.mp ht))
  · intro hge
    have hidx : (mulberryStep s.randState).2 * 5 / M32 < 5 :=
      Nat.div_lt_of_lt_mul (mul_lt_mul_of_pos_right ho (by norm_num))
    have hfire : (update shapeBase s t lvl bp true).2 =
        some (shapesList.getD ((mulberryStep s.randState).2 * 5 / M32) .sphere) := by
      simp [update, harm2, hge]
    have hrand : (update shapeBase s t lvl bp true).1.randState =
        (mulberryStep s.randState).1 := by
      simp [update, harm2, hge]
    have hstate : (update shapeBase s t lvl bp true).1.nextShapeAt =
        t + 16 * barUsed s := by
      simp [update, harm2, hge]
      by_cases hb : s.barSeconds = 0
      · norm_num [scheduleNextShape, barUsed, hb]
      · simp [scheduleNextShape, barUsed, hb]
    refine ⟨hfire, hidx, hrand, hstate, ?_⟩
    obtain ⟨s2, hs2⟩ : ∃ s2, (update shapeBase s t lvl bp true).1 = s2 := ⟨_, rfl⟩
    rw [hs2] at hstate
    have hlt2 : ¬ (s2.nextShapeAt ≤ t2) := by
      rw [hstate]
      intro hcon
      linarith
    rw [hs2]
    simp [update, hlt2]
  · intro k hk
    constructor
    · intro he
      have h1 : k * M32 ≤ (mulberryStep s.randState).2 * 5 :=
        (Nat.le_div_iff_mul_le hM0).mp (le_of_eq he.symm)
      have h2 : (mulberryStep s.randState).2 * 5 < (k + 1) * M32 :=
        (Nat.div_lt_iff_lt_mul hM0).mp (by omega)
      constructor
      · rw [div_le_div_iff (by norm_num) hM]
        exact_mod_cast h1
      · rw [div_lt_div_iff hM (by norm_num)]
        exact_mod_cast h2
    · rintro ⟨hlo, hhi⟩
      rw [div_le_div_iff (by norm_num) hM] at hlo
      rw [div_lt_div_iff hM (by norm_num)] at hhi
      have h1 : k * M32 ≤ (mulberryStep s.randState).2 * 5 := by exact_mod_cast hlo
      have h2 : (mulberryStep s.randState).2 * 5 < (k + 1) * M32 := by
        have h3 : ((mulberryStep s.randState).2 : ℚ) * 5 < ((k : ℚ) + 1) * M32 := hhi
        exact_mod_cast h3
      exact Nat.div_eq_of_lt_le h1 h2

/-- Witness for C5 at the armed demo deformer: tick times 1 and 2, bar
length 2 s. -/
theorem C5_shape_cycle_tick_witness :
    (0 < demoSched.nextShapeAt) ∧ (0 ≤ demoSched.barSeconds) ∧
    ((1 : ℚ) ≤ 2) ∧ ((2 : ℚ) ≤ 1 + barUsed demoSched) ∧
    (((update cexGeom demoSched 1 0 0 true).2 ≠ none → demoSched.nextShapeAt ≤ 1) ∧
    ((1 : ℚ) < demoSched.nextShapeAt → (update cexGeom demoSched 1 0 0 true).2 = none) ∧
    (demoSched.nextShapeAt ≤ 1 →
      (update cexGeom demoSched 1 0 0 true).2 =
        some (shapesList.getD ((mulberryStep demoSched.randState).2 * 5 / M32) .sphere) ∧
      (mulberryStep demoSched.randState).2 * 5 / M32 < 5 ∧
      (update cexGeom demoSched 1 0 0 true).1.randState =
        (mulberryStep demoSched.randState).1 ∧
      (update cexGeom demoSched 1 0 0 true).1.nextShapeAt = 1 + 16 * barUsed demoSched ∧
      (update cexGeom (update cexGeom demoSched 1 0 0 true).1 2 0 0 true).2 = none) ∧
    (∀ k : Nat, k < 5 →
      ((mulberryStep demoSched.randState).2 * 5 / M32 = k ↔
        (k : ℚ) / 5 ≤ ((mulberryStep demoSched.randState).2 : ℚ) / (M32 : ℚ) ∧
        ((mulberryStep demoSched.randState).2 : ℚ) / (M32 : ℚ) < ((k : ℚ) + 1) / 5))) :=
  ⟨by norm_num [demoSched, demoVis, initVis], by norm_num [demoSched, demoVis, initVis],
    by norm_num, by norm_num [barUsed, demoSched, demoVis, initVis],
    C5_shape_cycle_tick cexGeom demoSched 1 2 0 0 0 0
      (by norm_num [demoSched, demoVis, initVis])
      (by norm_num [demoSched, demoVis, initVis]) (by norm_num)
      (by norm_num [barUsed, demoSched, demoVis, initVis])⟩

/-! ## Claim C9: repeated updates with quiescent inputs -/

/-- Iterating `update` with inputs `level = 0`, `beatPulse = 0` at a fixed
time `t`. -/
def iterUpdate (shapeBase : ShapeKind → List (ℚ × ℚ × ℚ)) (s : VisState) (t : ℚ)
    (b : Bool) : Nat → VisState
  | 0 => s
  | k + 1 => (update shapeBase (iterUpdate shapeBase s t b k) t 0 0 b).1

/-- When the shape cycle does not fire, `update` only rewrites the
smoothed level, the live positions and the rotation: the base snapshot,
the noise table, the style, the time scale and the schedule are
untouched. -/
theorem update_nofire_fields (shapeBase : ShapeKind → List (ℚ × ℚ × ℚ)) (s : VisState)
    (t lvl bp : ℚ) (b : Bool) (harm : s.nextShapeAt = 0) :
    (update shapeBase s t lvl bp b).1.level = smoothUpdate s.level lvl ∧
    (update shapeBase s t lvl bp b).1.basePositions = s.basePositions ∧
    (update shapeBase s t lvl bp b).1.nextShapeAt = 0 ∧
    (update shapeBase s t lvl bp b).1.perm = s.perm ∧
    (update shapeBase s t lvl bp b).1.style = s.style ∧
    (update shapeBase s t lvl bp b).1.timeScale = s.timeScale := by
  have hnc : ¬ (b = true ∧ s.nextShapeAt ≠ 0 ∧ s.nextShapeAt ≤ t) :=
    fun hcon => hcon.2.1 harm
  simp [update, hnc, harm]

/-- The live positions written by `update` are a function of the base
snapshot, the noise table, the style, the time scale and the smoothed
level only: two unarmed states agreeing there produce identical
positions. -/
theorem update_positions_congr (shapeBase : ShapeKind → List (ℚ × ℚ × ℚ))
    (s1 s2 : VisState) (t lvl bp : ℚ) (b : Bool)
    (hl : s1.level = s2.level) (hp : s1.perm = s2.perm) (hs : s1.style = s2.style)
    (ht : s1.timeScale = s2.timeScale) (hb : s1.basePositions = s2.basePositions)
    (hn1 : s1.nextShapeAt = 0) (hn2 : s2.nextShapeAt = 0) :
    (update shapeBase s1 t lvl bp b).1.positions =
      (update shapeBase s2 t lvl bp b).1.positions := by
  have hnc1 : ¬ (b = true ∧ s1.nextShapeAt ≠ 0 ∧ s1.nextShapeAt ≤ t) :=
    fun hcon => hcon.2.1 hn1
  have hnc2 : ¬ (b = true ∧ s2.nextShapeAt ≠ 0 ∧ s2.nextShapeAt ≤ t) :=
    fun hcon => hcon.2.1 hn2
  simp [update, hnc1, hnc2, hl, hp, hs, ht, hb, hn1, hn2]

/-- C9 (amended): when the smoothed loudness has already decayed to 0
(e.g. a fresh deformer) and no shape change is armed, repeated `update`
calls with `level = 0`, `beatPulse = 0` and unchanging time never mutate
the base snapshot and produce identical live vertex positions on every
repetition: positions are recomputed from the immutable base each call.
(With a NONZERO smoothed level this fails — see the counterexample — as
the level decays by 0.85 per call and the pulse-scaled amplitude changes
the displacement between repetitions.) -/
theorem C9_no_drift_when_quiescent (shapeBase : ShapeKind → List (ℚ × ℚ × ℚ))
    (s : VisState) (t : ℚ) (b : Bool) (hlvl : s.level = 0) (harm : s.nextShapeAt = 0) :
    ∀ k : Nat,
      (iterUpdate shapeBase s t b k).basePositions = s.basePositions ∧
      (iterUpdate shapeBase s t b k).level = 0 ∧
      (iterUpdate shapeBase s t b k).nextShapeAt = 0 ∧
      (iterUpdate shapeBase s t b k).perm = s.perm ∧
      (iterUpdate shapeBase s t b k).style = s.style ∧
      (iterUpdate shapeBase s t b k).timeScale = s.timeScale ∧
      (1 ≤ k → (iterUpdate shapeBase s t b k).positions =
        (iterUpdate shapeBase s t b 1).positions) := by
  intro k
  induction k with
  | zero => exact ⟨rfl, hlvl, harm, rfl, rfl, rfl, by omega⟩
  | succ n ih =>
      obtain ⟨ihb, ihl, ihn, ihp, ihs, iht, ihpos⟩ := ih
      obtain ⟨f1, f2, f3, f4, f5, f6⟩ :=
        update_nofire_fields shapeBase (iterUpdate shapeBase s t b n) t 0 0 b ihn
      have hsm : smoothUpdate (iterUpdate shapeBase s t b n).level 0 = 0 := by
        rw [ihl]
        simp [smoothUpdate]
      refine ⟨by rw [iterUpdate]; rw [f2, ihb], by rw [iterUpdate]; rw [f1, hsm],
        by rw [iterUpdate]; rw [f3], by rw [iterUpdate]; rw [f4, ihp],
        by rw [iterUpdate]; rw [f5, ihs], by rw [iterUpdate]; rw [f6, iht], ?_⟩
      intro _
      show (update shapeBase (iterUpdate shapeBase s t b n) t 0 0 b).1.positions = _
      have h1 : (iterUpdate shapeBase s t b 1).positions =
          (update shapeBase s t 0 0 b).1.positions := by
        rw [iterUpdate, iterUpdate]
      rw [h1]
      exact update_positions_congr shapeBase (iterUpdate shapeBase s t b n) s t 0 0 b
        (by rw [ihl, hlvl]) ihp ihs iht ihb ihn harm

/-- Witness for C9 (amended): the fresh demo deformer, two repetitions. -/
theorem C9_no_drift_when_quiescent_witness :
    demoVis.level = 0 ∧ demoVis.nextShapeAt = 0 ∧
    ((iterUpdate cexGeom demoVis 0 false 2).basePositions = demoVis.basePositions ∧
      (iterUpdate cexGeom demoVis 0 false 2).level = 0 ∧
      (iterUpdate cexGeom demoVis 0 false 2).nextShapeAt = 0 ∧
      (iterUpdate cexGeom demoVis 0 false 2).perm = demoVis.perm ∧
      (iterUpdate cexGeom demoVis 0 false 2).style = demoVis.style ∧
      (iterUpdate cexGeom demoVis 0 false 2).timeScale = demoVis.timeScale ∧
      (1 ≤ 2 → (iterUpdate cexGeom demoVis 0 false 2).positions =
        (iterUpdate cexGeom demoVis 0 false 1).positions)) :=
  ⟨rfl, rfl, C9_no_drift_when_quiescent cexGeom demoVis 0 false rfl rfl 2⟩

/-- The pulse computed by `update` from the previous smoothed level and a
zero beat pulse. -/
def pulseOf (s : VisState) (lvl : ℚ) : ℝ :=
  max ((0 : ℚ) : ℝ) (((clampQ (smoothUpdate s.level lvl) 0 1 : ℚ) : ℝ) ^ ((9 : ℝ)/10))

/-- The displacement amplitude computed by `update` for those inputs. -/
def ampOf (s : VisState) (lvl : ℚ) : ℝ :=
  (s.style.displaceAmp : ℝ) * (6/10 + (s.style.audioReact : ℝ) * pulseOf s lvl)

/-- The fBm sample taken by `update` at the base vertex `(1, 0, 0)`. -/
def nOf (s : VisState) (t : ℚ) : ℚ :=
  fbm3 s.perm (1 * s.style.noiseScale + t * s.timeScale)
    (0 * s.style.noiseScale + 3123/1000) (0 * s.style.noiseScale - 1789/1000) 5 2 (1/2)

/-- On a one-vertex base `(1, 0, 0)` the written positions are a single
displaced triple. -/
theorem update_single_head (shapeBase : ShapeKind → List (ℚ × ℚ × ℚ)) (s : VisState)
    (t : ℚ) (b : Bool) (hbase : s.basePositions = [(1, 0, 0)]) (harm : s.nextShapeAt = 0) :
    (update shapeBase s t 0 0 b).1.positions =
      [((1 : ℝ) * (1 + ampOf s 0 * ((nOf s t : ℚ) : ℝ)),
        (0 : ℝ) * (1 + ampOf s 0 * ((nOf s t : ℚ) : ℝ)),
        (0 : ℝ) * (1 + ampOf s 0 * ((nOf s t : ℚ) : ℝ)))] := by
  have hnc : ¬ (b = true ∧ s.nextShapeAt ≠ 0 ∧ s.nextShapeAt ≤ t) :=
    fun hcon => hcon.2.1 harm
  simp [update, hnc, hbase, displacedVertex, pulseOf, ampOf, nOf]

/-- The fresh demo deformer after one frame of full loudness
(`level = 1`): its smoothed level is exactly 1. -/
def cexS1 : VisState := (update cexGeom demoVis 0 1 0 false).1

/-- First repetition with quiescent inputs. -/
def cexS2 : VisState := (update cexGeom cexS1 0 0 0 false).1

/-- Second repetition with the identical quiescent inputs. -/
def cexS3 : VisState := (update cexGeom cexS2 0 0 0 false).1

set_option maxHeartbeats 2000000 in
/-- C9 counterexample: starting from the deformer one full-loudness frame
after construction, two consecutive `update` calls with the identical
inputs `level = 0`, `beatPulse = 0`, `t = 0` produce DIFFERENT live
vertex positions: the smoothed level decays 1 → 0.85 → 0.7225, the pulse
`clamp(level)^0.9` strictly decreases, and the displacement amplitude
with it, while the noise sample at the base vertex is nonzero. -/
theorem C9_counterexample : cexS2.positions ≠ cexS3.positions := by
  have hseed : seedVal (.num 123456) = 123456 := by decide
  have hdemo : demoVis.basePositions = [(1, 0, 0)] ∧ demoVis.nextShapeAt = 0 ∧
      demoVis.level = 0 ∧ demoVis.perm = setSeedPerm 123456 ∧
      demoVis.style = defaultStyle ∧ demoVis.timeScale = 1/4 := by
    refine ⟨rfl, rfl, rfl, ?_, rfl, rfl⟩
    show setSeedPerm (seedVal (.num 123456)) = setSeedPerm 123456
    rw [hseed]
  obtain ⟨hf1l, hf1b, hf1n, hf1p, hf1s, hf1t⟩ :=
    update_nofire_fields cexGeom demoVis 0 1 0 false hdemo.2.1
  have h1l : cexS1.level = 1 := by
    show (update cexGeom demoVis 0 1 0 false).1.level = 1
    rw [hf1l, hdemo.2.2.1]
    norm_num [smoothUpdate]
  obtain ⟨hf2l, hf2b, hf2n, hf2p, hf2s, hf2t⟩ :=
    update_nofire_fields cexGeom cexS1 0 0 0 false hf1n
  have h2l : cexS2.level = 85/100 := by
    show (update cexGeom cexS1 0 0 0 false).1.level = 85/100
    rw [hf2l, h1l]
    norm_num [smoothUpdate]
  have h2pos : cexS2.positions =
      [((1 : ℝ) * (1 + ampOf cexS1 0 * ((nOf cexS1 0 : ℚ) : ℝ)),
        (0 : ℝ) * (1 + ampOf cexS1 0 * ((nOf cexS1 0 : ℚ) : ℝ)),
        (0 : ℝ) * (1 + ampOf cexS1 0 * ((nOf cexS1 0 : ℚ) : ℝ)))] :=
    update_single_head cexGeom cexS1 0 false (by
      show (update cexGeom demoVis 0 1 0 false).1.basePositions = _
      rw [hf1b, hdemo.1]) hf1n
  have h3pos : cexS3.positions =
      [((1 : ℝ) * (1 + ampOf cexS2 0 * ((nOf cexS2 0 : ℚ) : ℝ)),
        (0 : ℝ) * (1 + ampOf cexS2 0 * ((nOf cexS2 0 : ℚ) : ℝ)),
        (0 : ℝ) * (1 + ampOf cexS2 0 * ((nOf cexS2 0 : ℚ) : ℝ)))] :=
    update_single_head cexGeom cexS2 0 false (by
      show (update cexGeom cexS1 0 0 0 false).1.basePositions = _
      rw [hf2b]
      show (update cexGeom demoVis 0 1 0 false).1.basePositions = _
      rw [hf1b, hdemo.1]) hf2n
  have hsame_n : nOf cexS2 0 = nOf cexS1 0 := by
    unfold nOf
    rw [show cexS2.perm = cexS1.perm from hf2p, show cexS2.style = cexS1.style from hf2s,
      show cexS2.timeScale = cexS1.timeScale from hf2t]
  have hn : nOf cexS1 0 ≠ 0 := by
    unfold nOf
    rw [show cexS1.perm = setSeedPerm 123456 from hf1p.trans hdemo.2.2.2.1,
      show cexS1.style = defaultStyle from hf1s.trans hdemo.2.2.2.2.1,
      show cexS1.timeScale = 1/4 from hf1t.trans hdemo.2.2.2.2.2]
    decide
  have hstyle1 : cexS1.style = defaultStyle := hf1s.trans hdemo.2.2.2.2.1
  have hstyle2 : cexS2.style = defaultStyle := hf2s.trans hstyle1
  have hp1 : pulseOf cexS1 0 = ((85/100 : ℚ) : ℝ) ^ ((9 : ℝ)/10) := by
    unfold pulseOf
    rw [h1l]
    norm_num [smoothUpdate, clampQ]
    exact Real.rpow_nonneg (by norm_num) _
  have hp2 : pulseOf cexS2 0 = ((289/400 : ℚ) : ℝ) ^ ((9 : ℝ)/10) := by
    unfold pulseOf
    rw [h2l]
    norm_num [smoothUpdate, clampQ]
    exact Real.rpow_nonneg (by norm_num) _
  have hplt : pulseOf cexS2 0 < pulseOf cexS1 0 := by
    rw [hp1, hp2]
    push_cast
    exact Real.rpow_lt_rpow (by norm_num) (by norm_num) (by norm_num)
  have hamp : ampOf cexS2 0 < ampOf cexS1 0 := by
    unfold ampOf
    rw [hstyle1, hstyle2]
    have hd : ((defaultStyle.displaceAmp : ℚ) : ℝ) = (85/100 : ℝ) := by
      norm_num [defaultStyle]
    have ha : ((defaultStyle.audioReact : ℚ) : ℝ) = (35/100 : ℝ) := by
      norm_num [defaultStyle]
    rw [hd, ha]
    nlinarith [hplt]
  intro hcon
  rw [h2pos, h3pos, hsame_n] at hcon
  have hfst := congrArg (fun l => (l.headD (0, 0, 0)).1) hcon
  simp only [List.headD_cons] at hfst
  have hne : ((nOf cexS1 0 : ℚ) : ℝ) ≠ 0 := by
    exact_mod_cast hn
  have hampeq : ampOf cexS1 0 = ampOf cexS2 0 := by
    have h2 : ampOf cexS1 0 * ((nOf cexS1 0 : ℚ) : ℝ) =
        ampOf cexS2 0 * ((nOf cexS1 0 : ℚ) : ℝ) := by linarith [hfst]
    exact mul_right_cancel₀ hne h2
  linarith

end

end Coopernoise
